import Mathlib

/-!
A shallow embedding of the planning-poker-fluent repository's query/mutation
core.  The repository ships only the thin `FluentQueryHelper` script include;
the query engine itself (schema registry, chainable query builder, executor
with safe mutation semantics) exists only as the design in the specification.
We therefore embed two layers:

* the designed core (descriptors, builder chaining, executor, `execute`
  mutation semantics with the bulk-safety guard), modelled from the spec;
* the source's `FluentQueryHelper` functions (`updateSafe`, `insertSafe`,
  `batchInsert`), translated from
  `src/server/script-includes/helpers/FluentQueryHelper.script.js`, over an
  abstracted platform store standing in for the external GlideQuery API.
-/

/-- Scalar field values of the engine's data model (spec section 3 lists
string, integer, boolean, datetime, choice, reference, json; the model keeps
the three scalar shapes that predicates and ordering distinguish, plus null). -/
inductive Value where
| str (s : String)
| int (n : Int)
| boolv (b : Bool)
| null
deriving DecidableEq

/-- Association-list lookup by field name (first binding wins, as in a JS
object where keys are unique). -/
def alookup {α : Type} (fs : List (String × α)) (f : String) : Option α :=
  (fs.find? (fun p => p.1 == f)).map Prod.snd

/-- Association-list write: overwrite an existing binding in place, else
append a new one. -/
def aset {α : Type} (fs : List (String × α)) (f : String) (v : α) : List (String × α) :=
  if fs.any (fun p => p.1 == f) then fs.map (fun p => if p.1 == f then (f, v) else p)
  else fs ++ [(f, v)]

/-- Merge update data into a field list, later writes overwriting. -/
def amerge {α : Type} (fs : List (String × α)) (data : List (String × α)) : List (String × α) :=
  data.foldl (fun acc p => aset acc p.1 p.2) fs

/-- A stored record: a mapping from field name to value (spec section 3,
Record). -/
structure Row where
  fields : List (String × Value)
deriving DecidableEq

/-- Field access on a record. -/
def Row.getField (r : Row) (f : String) : Option Value :=
  alookup r.fields f

/-- Modelled from the spec: the relational table store backing the engine
(the storage backend is out of scope of the source; spec section 1 assumes a
conventional relational store).  `nextId` feeds primary-key generation on
insert. -/
structure Store where
  tabs : List (String × List Row)
  nextId : Nat
deriving DecidableEq

/-- The rows of a table, empty when the table holds no rows. -/
def Store.getTable (s : Store) (t : String) : List Row :=
  (alookup s.tabs t).getD []

/-- Replace the rows of a table. -/
def Store.setTable (s : Store) (t : String) (rows : List Row) : Store :=
  { s with tabs := (t, rows) :: s.tabs.filter (fun p => !(p.1 == t)) }

/-- Predicate operators of the query descriptor (spec section 3). -/
inductive PredOp where
| eq
| neq
| inList
| notInList
| isNull
| isNotNull
deriving DecidableEq

/-- Modelled from the spec: a descriptor predicate (field, operator, value
list; `eq`/`neq` use a singleton list, `isNull`/`isNotNull` ignore it). -/
structure QPred where
  field : String
  op : PredOp
  value : List Value
deriving DecidableEq

/-- Evaluate one predicate against a record. -/
def evalPred (p : QPred) (r : Row) : Bool :=
  match p.op with
  | .eq =>
    match r.getField p.field, p.value with
    | some v, [w] => v == w
    | _, _ => false
  | .neq =>
    match r.getField p.field, p.value with
    | some v, [w] => !(v == w)
    | _, _ => false
  | .inList =>
    match r.getField p.field with
    | some v => p.value.contains v
    | none => false
  | .notInList =>
    match r.getField p.field with
    | some v => !(p.value.contains v)
    | none => false
  | .isNull =>
    match r.getField p.field with
    | some v => v == Value.null
    | none => true
  | .isNotNull =>
    match r.getField p.field with
    | some v => !(v == Value.null)
    | none => false

/-- Sort direction of an order term. -/
inductive SortDir where
| asc
| desc
deriving DecidableEq

/-- One sort key of a descriptor (spec section 3, OrderTerm). -/
structure OrderTerm where
  field : String
  dir : SortDir
deriving DecidableEq

/-- Aggregate functions supported by the engine (spec section 3). -/
inductive AggFun where
| count
| sum
| avg
| min
| max
deriving DecidableEq

/-- One aggregate spec of a descriptor; `field` is absent for count. -/
structure AggSpec where
  fn : AggFun
  field : Option String
deriving DecidableEq

/-- Modelled from the spec: the immutable query descriptor produced by the
chainable builder (spec section 3, QueryDescriptor).  The query engine is not
in the source; only the helper that would call it is. -/
structure QueryDescriptor where
  table : String
  preds : List QPred
  orders : List OrderTerm
  limit : Option Nat
  projection : Option (List String)
  aggs : List AggSpec
deriving DecidableEq

/-- Modelled from the spec: builder entry point `from(table)`. -/
def fromTable (t : String) : QueryDescriptor :=
  { table := t, preds := [], orders := [], limit := none, projection := none, aggs := [] }

/-- Modelled from the spec: `where` appends one predicate (spec section 4.2:
multiple calls AND together). -/
def QueryDescriptor.wherePred (d : QueryDescriptor) (p : QPred) : QueryDescriptor :=
  { d with preds := d.preds ++ [p] }

/-- Modelled from the spec: `orderBy` appends one sort key, first appended is
primary (spec section 4.2). -/
def QueryDescriptor.orderByTerm (d : QueryDescriptor) (o : OrderTerm) : QueryDescriptor :=
  { d with orders := d.orders ++ [o] }

/-- Modelled from the spec: `limit(n)` sets the bound, calling twice
overwrites (spec section 4.2: last write wins). -/
def QueryDescriptor.withLimit (d : QueryDescriptor) (n : Nat) : QueryDescriptor :=
  { d with limit := some n }

/-- A record matches a descriptor when every predicate holds (AND). -/
def rowMatches (d : QueryDescriptor) (r : Row) : Bool :=
  d.preds.all (fun p => evalPred p r)

/-- Rank used to compare values of different shapes deterministically. -/
def Value.rank : Value → Nat
| .null => 0
| .boolv _ => 1
| .int _ => 2
| .str _ => 3

/-- Deterministic three-way comparison of field values. -/
def cmpValue : Value → Value → Ordering
| .null, .null => .eq
| .boolv a, .boolv b => if a == b then .eq else if a then .gt else .lt
| .int a, .int b => compare a b
| .str a, .str b => compare a b
| a, b => compare a.rank b.rank

/-- Comparison lifted to possibly-missing fields (missing sorts first). -/
def cmpOptValue : Option Value → Option Value → Ordering
| none, none => .eq
| none, some _ => .lt
| some _, none => .gt
| some a, some b => cmpValue a b

/-- Three-way comparison of two records under one order term. -/
def cmpKey (o : OrderTerm) (r1 r2 : Row) : Ordering :=
  let c := cmpOptValue (r1.getField o.field) (r2.getField o.field)
  match o.dir with
  | .asc => c
  | .desc => c.swap

/-- Lexicographic comparison under a list of order terms: the first appended
term is the primary sort key, later terms break ties only. -/
def cmpRows : List OrderTerm → Row → Row → Ordering
| [], _, _ => .eq
| o :: rest, r1, r2 =>
  match cmpKey o r1 r2 with
  | .eq => cmpRows rest r1 r2
  | c => c

/-- Not-greater test used by the stable sort. -/
def rowLE (os : List OrderTerm) (r1 r2 : Row) : Bool :=
  !(cmpRows os r1 r2 == Ordering.gt)

/-- Stable insertion into a sorted list. -/
def insertSorted (le : Row → Row → Bool) (r : Row) : List Row → List Row
| [] => [r]
| x :: xs => if le r x then r :: x :: xs else x :: insertSorted le r xs

/-- Stable insertion sort of the result rows. -/
def sortRows (le : Row → Row → Bool) : List Row → List Row
| [] => []
| x :: xs => insertSorted le x (sortRows le xs)

/-- Modelled from the spec: the pure result-row computation of the executor:
filter by the AND of the predicates, sort by the order terms, apply the
limit (spec section 4.3, fetchMany). -/
def fetchRows (s : Store) (d : QueryDescriptor) : List Row :=
  let rows := (s.getTable d.table).filter (fun r => rowMatches d r)
  let rows := if d.orders.isEmpty then rows else sortRows (fun a b => rowLE d.orders a b) rows
  match d.limit with
  | some n => rows.take n
  | none => rows

/-- The named error kinds of the spec's error taxonomy (spec section 7). -/
inductive EngineError where
| schemaError (msg : String)
| unknownTable (t : String)
| unknownField (f : String)
| typeMismatch (msg : String)
| aggregateConflict
| validationError (fieldName : String)
| referentialIntegrity (msg : String)
| notFound
| unsafeBulkMutation
| executionError (msg : String)
deriving DecidableEq

/-- Modelled from the spec: the storage backend as seen by the executor.  A
`fault` stands for an underlying storage failure on the next operation; the
executor must wrap it as `ExecutionError`, never swallow it (spec sections
4.3 and 7). -/
structure Backend where
  store : Store
  fault : Option String
deriving DecidableEq

/-- Modelled from the spec: `fetchMany` (spec section 4.3): the ordered,
filtered, limited result rows, or `ExecutionError` wrapping the backend
failure. -/
def fetchMany (b : Backend) (d : QueryDescriptor) : Except EngineError (List Row) :=
  match b.fault with
  | some m => .error (.executionError m)
  | none => .ok (fetchRows b.store d)

/-- Modelled from the spec: `fetchOne` (spec section 4.3): `fetchMany` with
the limit forced to 1; absent (`none`), not an error, on zero matches. -/
def fetchOne (b : Backend) (d : QueryDescriptor) : Except EngineError (Option Row) :=
  match fetchMany b { d with limit := some 1 } with
  | .error e => .error e
  | .ok rows => .ok rows.head?

/-- Modelled from the spec: `fetchOneOrFail` (spec section 4.3): like
`fetchOne` but `NotFoundError` on zero matches. -/
def fetchOneOrFail (b : Backend) (d : QueryDescriptor) : Except EngineError Row :=
  match fetchOne b d with
  | .error e => .error e
  | .ok none => .error .notFound
  | .ok (some r) => .ok r

/-- Integer content of a value, used by the numeric aggregates. -/
def Value.toInt : Value → Int
| .int n => n
| _ => 0

/-- Evaluate one aggregate spec over the matching rows (avg is integer
division in the model). -/
def evalAgg (rows : List Row) (a : AggSpec) : Value :=
  match a.fn, a.field with
  | .count, _ => .int rows.length
  | _, none => .null
  | .sum, some f => .int (rows.foldl (fun acc r => acc + ((r.getField f).getD .null).toInt) 0)
  | .avg, some f =>
    if rows.length == 0 then .null
    else .int ((rows.foldl (fun acc r => acc + ((r.getField f).getD .null).toInt) 0) / rows.length)
  | .min, some f =>
    match rows.map (fun r => ((r.getField f).getD .null).toInt) with
    | [] => .null
    | v :: vs => .int (vs.foldl (fun acc x => if x < acc then x else acc) v)
  | .max, some f =>
    match rows.map (fun r => ((r.getField f).getD .null).toInt) with
    | [] => .null
    | v :: vs => .int (vs.foldl (fun acc x => if acc < x then x else acc) v)

/-- Result key of one aggregate spec: `{function}_{field}`, or `count`
alone (spec section 4.3). -/
def aggKey (a : AggSpec) : String :=
  match a.fn, a.field with
  | .count, _ => "count"
  | .sum, some f => "sum_" ++ f
  | .avg, some f => "avg_" ++ f
  | .min, some f => "min_" ++ f
  | .max, some f => "max_" ++ f
  | .sum, none => "sum"
  | .avg, none => "avg"
  | .min, none => "min"
  | .max, none => "max"

/-- Modelled from the spec: `aggregateOne` (spec section 4.3): a mapping from
aggregate alias to scalar over the rows matching the predicates;
`AggregateConflictError` when the descriptor carries no aggregate specs. -/
def aggregateOne (b : Backend) (d : QueryDescriptor) : Except EngineError (List (String × Value)) :=
  match b.fault with
  | some m => .error (.executionError m)
  | none =>
    if d.aggs.isEmpty then .error .aggregateConflict
    else
      let rows := (b.store.getTable d.table).filter (fun r => rowMatches d r)
      .ok (d.aggs.map (fun a => (aggKey a, evalAgg rows a)))

/-- Modelled from the spec: `count` (spec section 4.3): sugar for
`aggregateOne` with a single count spec, unwrapped to a bare integer. -/
def countRows (b : Backend) (d : QueryDescriptor) : Except EngineError Nat :=
  match aggregateOne b { d with aggs := [{ fn := .count, field := none }] } with
  | .error e => .error e
  | .ok kvs =>
    match kvs with
    | [(_, Value.int n)] => .ok n.toNat
    | _ => .ok 0

/-- A field definition of a table schema: name plus nullable flag (spec
section 3; required means non-nullable with no default, and the model keeps
no defaults). -/
structure FieldDef where
  name : String
  nullable : Bool
deriving DecidableEq

/-- A table schema of the registry (spec section 3, TableSchema, restricted
to what insert/update validation consumes). -/
structure TableSchema where
  name : String
  fieldDefs : List FieldDef
deriving DecidableEq

/-- Modelled from the spec: engine configuration: the registered schemas and
the bulk-mutation safety threshold (spec sections 3 and 4.3). -/
structure Config where
  schemas : List TableSchema
  threshold : Nat
deriving DecidableEq

/-- Field definitions of a table, empty when unregistered. -/
def Config.schemaOf (c : Config) (t : String) : List FieldDef :=
  match c.schemas.find? (fun s => s.name == t) with
  | some s => s.fieldDefs
  | none => []

/-- Target of an update/delete: a primary key, or a predicate list (bulk
mode) (spec section 3, MutationRequest). -/
inductive MutTarget where
| byKey (k : String)
| byPred (ps : List QPred)
deriving DecidableEq

/-- The three mutation operations (spec section 3). -/
inductive MutOp where
| insertOp (data : List (String × Value))
| updateOp (target : MutTarget) (data : List (String × Value))
| deleteOp (target : MutTarget)
deriving DecidableEq

/-- Modelled from the spec: a mutation request; `bulkConfirmed` is the
explicit bulk-confirmation flag of spec section 4.3. -/
structure MutationRequest where
  table : String
  op : MutOp
  bulkConfirmed : Bool
deriving DecidableEq

/-- Outcome of a successful mutation: the generated key with the echoed
fields for insert, the affected-row count for update/delete (spec
section 4.3). -/
inductive Outcome where
| insertedKey (k : String) (echoed : List (String × Value))
| affected (n : Nat)
deriving DecidableEq

/-- First required field missing or null in insert data, if any. -/
def missingRequired (fds : List FieldDef) (data : List (String × Value)) : Option String :=
  match fds.find? (fun fd =>
    !fd.nullable && (alookup data fd.name == none || alookup data fd.name == some Value.null)) with
  | some fd => some fd.name
  | none => none

/-- Apply update data to one record; fails with `ValidationError` when the
data nulls out a non-nullable field. -/
def updateRow (fds : List FieldDef) (data : List (String × Value)) (r : Row) :
    Except EngineError Row :=
  match data.find? (fun p =>
    p.2 == Value.null && ((fds.find? (fun fd => fd.name == p.1)).any (fun fd => !fd.nullable))) with
  | some p => .error (.validationError p.1)
  | none => .ok { fields := amerge r.fields data }

/-- Apply update data to every record matching the predicates, validating
row by row and committing nothing on a failure; on success returns the new
table and the affected-row count. -/
def updateAllRows (fds : List FieldDef) (ps : List QPred) (data : List (String × Value)) :
    List Row → Except EngineError (List Row × Nat)
| [] => .ok ([], 0)
| r :: rest =>
  if ps.all (fun p => evalPred p r) then
    match updateRow fds data r with
    | .error e => .error e
    | .ok r2 =>
      match updateAllRows fds ps data rest with
      | .error e => .error e
      | .ok (rs, n) => .ok (r2 :: rs, n + 1)
  else
    match updateAllRows fds ps data rest with
    | .error e => .error e
    | .ok (rs, n) => .ok (r :: rs, n)

/-- The key generated for the next insert. -/
def freshKey (s : Store) : String :=
  "rec" ++ toString s.nextId

/-- The predicate selecting the record with the given primary key. -/
def keyPred (k : String) : QPred :=
  { field := "id", op := .eq, value := [Value.str k] }

/-- Modelled from the spec: `execute(mutationRequest)` (spec sections 4.3 and
3): validates, then applies the mutation as one atomic unit against the
store; every failure leaves the store untouched and is one of the named
error kinds.  Insert generates the primary key and echoes the written
fields; update/delete by key fail with `NotFoundError` on a missing row;
predicate-based update/delete over the safety threshold without the
bulk-confirmation flag fail with `UnsafeBulkMutationError`. -/
def execute (cfg : Config) (b : Backend) (req : MutationRequest) :
    Except EngineError Outcome × Store :=
  match b.fault with
  | some m => (.error (.executionError m), b.store)
  | none =>
    let s := b.store
    let rows := s.getTable req.table
    match req.op with
    | .insertOp data =>
      match missingRequired (cfg.schemaOf req.table) data with
      | some f => (.error (.validationError f), s)
      | none =>
        let k := freshKey s
        let newRow : Row := { fields := ("id", Value.str k) :: data }
        let s2 := s.setTable req.table (rows ++ [newRow])
        (.ok (.insertedKey k data), { s2 with nextId := s2.nextId + 1 })
    | .updateOp target data =>
      match target with
      | .byKey k =>
        match updateAllRows (cfg.schemaOf req.table) [keyPred k] data rows with
        | .error e => (.error e, s)
        | .ok (rs, n) =>
          if n == 0 then (.error .notFound, s)
          else (.ok (.affected n), s.setTable req.table rs)
      | .byPred ps =>
        let matched := (rows.filter (fun r => ps.all (fun p => evalPred p r))).length
        if matched > cfg.threshold && !req.bulkConfirmed then (.error .unsafeBulkMutation, s)
        else
          match updateAllRows (cfg.schemaOf req.table) ps data rows with
          | .error e => (.error e, s)
          | .ok (rs, n) => (.ok (.affected n), s.setTable req.table rs)
    | .deleteOp target =>
      match target with
      | .byKey k =>
        let remaining := rows.filter (fun r => !(evalPred (keyPred k) r))
        if remaining.length == rows.length then (.error .notFound, s)
        else (.ok (.affected (rows.length - remaining.length)), s.setTable req.table remaining)
      | .byPred ps =>
        let matched := (rows.filter (fun r => ps.all (fun p => evalPred p r))).length
        if matched > cfg.threshold && !req.bulkConfirmed then (.error .unsafeBulkMutation, s)
        else
          (.ok (.affected matched),
            s.setTable req.table (rows.filter (fun r => !(ps.all (fun p => evalPred p r)))))

/-- Running a query through the executor: the result together with the
backend afterwards (spec section 4.3: a read performs one unit of work and
leaves the store untouched; re-running means invoking `fetchMany` again on
the same immutable descriptor). -/
def runFetch (b : Backend) (d : QueryDescriptor) :
    Except EngineError (List Row) × Backend :=
  (fetchMany b d, b)

/-- A platform record as the source's helper sees it: a field-name-to-string
mapping carrying its `sys_id` (GlideQuery rows). -/
abbrev SNData := List (String × String)

/-- The platform table store behind the GlideQuery API (the platform itself
is external to the repository; spec section 1 treats it as a conventional
relational store). -/
structure SNStore where
  tabs : List (String × List SNData)
deriving DecidableEq

/-- The rows of a platform table. -/
def SNStore.getTable (s : SNStore) (t : String) : List SNData :=
  (alookup s.tabs t).getD []

/-- Replace the rows of a platform table. -/
def SNStore.setTable (s : SNStore) (t : String) (rows : List SNData) : SNStore :=
  { tabs := (t, rows) :: s.tabs.filter (fun p => !(p.1 == t)) }

/-- The existence check `new GlideQuery(table).get(sysId).selectOne(\x7b...\x7d)
.isPresent()` of `updateSafe` (FluentQueryHelper.script.js line 224). -/
def snRecordExists (s : SNStore) (table sysId : String) : Bool :=
  (s.getTable table).any (fun r => alookup r "sys_id" == some sysId)

/-- The platform write behind `get(sysId).update(data)` (FluentQueryHelper
.script.js line 236), modelled as a field merge on the keyed row. -/
def snUpdate (s : SNStore) (table sysId : String) (data : SNData) : SNStore :=
  s.setTable table
    ((s.getTable table).map (fun r => if alookup r "sys_id" == some sysId then amerge r data else r))

/-- The result object of `updateSafe` and `deleteSafe`. -/
structure UpdateResult where
  success : Bool
  error : Option String
deriving DecidableEq

/-- `updateSafe(table, sysId, data)` of FluentQueryHelper.script.js lines
214-253: guard on missing arguments, verify the record exists (returning
`Record not found: ` plus the sysId without writing when it does not), then
update.  `data` is a JS object, hence always truthy, so only `table` and
`sysId` can take the missing-argument guard. -/
def updateSafe (s : SNStore) (table sysId : String) (data : SNData) :
    UpdateResult × SNStore :=
  if table == "" || sysId == "" then
    ({ success := false, error := some "Missing table, sysId, or data" }, s)
  else if !(snRecordExists s table sysId) then
    ({ success := false, error := some ("Record not found: " ++ sysId) }, s)
  else
    ({ success := true, error := none }, snUpdate s table sysId data)

/-- The result object of `insertSafe`. -/
structure InsertResult where
  success : Bool
  sysId : Option String
  error : Option String
deriving DecidableEq

/-- The platform insert behind `new GlideQuery(table).insert(data)
.orElseThrow()`: the platform may accept the record (returning the new store
and generated sys_id) or throw (the `Except.error` carries the message the
source's catch block reads from `error.message`). -/
abbrev PlatformInsert := SNStore → String → SNData → Except String (SNStore × String)

/-- `insertSafe(table, data)` of FluentQueryHelper.script.js lines 169-197,
over an arbitrary platform insert behavior: guard on missing arguments, then
try the insert, catching a platform throw into a failure result. -/
def insertSafe (ins : PlatformInsert) (s : SNStore) (table : String) (data : SNData) :
    InsertResult × SNStore :=
  if table == "" then
    ({ success := false, sysId := none, error := some "Missing table or data" }, s)
  else
    match ins s table data with
    | .ok (s2, newId) => ({ success := true, sysId := some newId, error := none }, s2)
    | .error m => ({ success := false, sysId := none, error := some m }, s)

/-- The result object of `batchInsert`. -/
structure BatchResult where
  success : Bool
  inserted : Nat
  errors : List String
deriving DecidableEq

/-- The loop of `batchInsert` (FluentQueryHelper.script.js lines 482-489):
attempt each record in index order through `insertSafe`, counting successes
and collecting one `Record i: message` entry per failure; `i` is the running
index of the record in the input array. -/
def batchGo (ins : PlatformInsert) (table : String) :
    SNStore → Nat → List SNData → Nat × List String × SNStore
| s, _, [] => (0, [], s)
| s, i, d :: rest =>
  let step := insertSafe ins s table d
  let tail := batchGo ins table step.2 (i + 1) rest
  if step.1.success then
    (tail.1 + 1, tail.2.1, tail.2.2)
  else
    (tail.1, ("Record " ++ toString i ++ ": " ++ step.1.error.getD "") :: tail.2.1, tail.2.2)

/-- `batchInsert(table, records)` of FluentQueryHelper.script.js lines
469-505: guard on invalid parameters (`records` is a Lean list, hence always
an array, so only a falsy `table` takes the guard), run the loop, and report
`success` exactly when no per-record error was collected. -/
def batchInsert (ins : PlatformInsert) (s : SNStore) (table : String) (records : List SNData) :
    BatchResult × SNStore :=
  if table == "" then
    ({ success := false, inserted := 0, errors := ["Invalid parameters"] }, s)
  else
    let r := batchGo ins table s 0 records
    ({ success := r.2.1.isEmpty, inserted := r.1, errors := r.2.1 }, r.2.2)

/-- A concrete platform-insert behavior: the platform rejects an empty
record and accepts any other, used to exercise `batchInsert`. -/
def insRejectEmpty : PlatformInsert :=
  fun s _ d => if d.isEmpty then .error "empty record" else .ok (s, "sys1")

theorem getTable_setTable (s : Store) (t : String) (rows : List Row) :
    (s.setTable t rows).getTable t = rows := by
  simp [Store.getTable, Store.setTable, alookup]

theorem insertSorted_length (le : Row → Row → Bool) (r : Row) (xs : List Row) :
    (insertSorted le r xs).length = xs.length + 1 := by
  induction xs with
  | nil => simp [insertSorted]
  | cons x xs ih =>
    simp only [insertSorted]
    by_cases h : le r x = true
    · simp [h]
    · simp [h, ih]

theorem sortRows_length (le : Row → Row → Bool) (xs : List Row) :
    (sortRows le xs).length = xs.length := by
  induction xs with
  | nil => simp [sortRows]
  | cons x xs ih => simp [sortRows, insertSorted_length, ih]

theorem wherePred_foldl (ps : List QPred) (d : QueryDescriptor) :
    (ps.foldl QueryDescriptor.wherePred d).preds = d.preds ++ ps := by
  induction ps generalizing d with
  | nil => simp
  | cons p ps ih =>
    simp [List.foldl_cons, ih, QueryDescriptor.wherePred]

/-- C5: a chain of N `where` calls yields a descriptor with exactly those N
predicates, matched as their conjunction; a second `limit` call overwrites
the first (last write wins); each `orderBy` call appends one sort key, and
an earlier key decides the comparison whenever it is not a tie, so earlier
calls have higher priority. -/
theorem builder_chain_semantics :
    (∀ (t : String) (ps : List QPred) (r : Row),
      (ps.foldl QueryDescriptor.wherePred (fromTable t)).preds = ps
      ∧ (ps.foldl QueryDescriptor.wherePred (fromTable t)).preds.length = ps.length
      ∧ rowMatches (ps.foldl QueryDescriptor.wherePred (fromTable t)) r
          = ps.all (fun p => evalPred p r))
  ∧ (∀ (d : QueryDescriptor) (n1 n2 : Nat), ((d.withLimit n1).withLimit n2).limit = some n2)
  ∧ (∀ (d : QueryDescriptor) (o : OrderTerm), (d.orderByTerm o).orders = d.orders ++ [o])
  ∧ (∀ (o : OrderTerm) (rest : List OrderTerm) (r1 r2 : Row), cmpKey o r1 r2 ≠ Ordering.eq →
      cmpRows (o :: rest) r1 r2 = cmpKey o r1 r2) := by
  refine ⟨?_, ?_, ?_, ?_⟩
  · intro t ps r
    have h : (ps.foldl QueryDescriptor.wherePred (fromTable t)).preds = ps := by
      rw [wherePred_foldl]
      simp [fromTable]
    exact ⟨h, by rw [h], by simp [rowMatches, h]⟩
  · intro d n1 n2
    rfl
  · intro d o
    rfl
  · intro o rest r1 r2 h
    cases hc : cmpKey o r1 r2 with
    | eq => exact absurd hc h
    | lt => simp [cmpRows, hc]
    | gt => simp [cmpRows, hc]

/-- C5 witness: the first-key conjunct applied at a concrete non-tie pair. -/
theorem builder_chain_semantics_witness :
    cmpRows [{ field := "a", dir := SortDir.asc }] { fields := [("a", Value.int 1)] }
        { fields := [("a", Value.int 2)] }
      = cmpKey { field := "a", dir := SortDir.asc } { fields := [("a", Value.int 1)] }
        { fields := [("a", Value.int 2)] } :=
  builder_chain_semantics.2.2.2 { field := "a", dir := SortDir.asc } []
    { fields := [("a", Value.int 1)] } { fields := [("a", Value.int 2)] } (by decide)

/-- C8: running the same descriptor twice against an unchanged store is
deterministic: a fetch leaves the backend untouched and the re-run returns
the identical ordered result. -/
theorem fetch_deterministic (b : Backend) (d : QueryDescriptor) :
    (runFetch (runFetch b d).2 d).1 = (runFetch b d).1 ∧ (runFetch b d).2 = b :=
  ⟨rfl, rfl⟩

/-- C1: when the underlying storage fails, every query and mutation
operation surfaces the failure as the named `ExecutionError` kind wrapping
the backend message; none returns a null or empty success result, and the
store is untouched. -/
theorem errors_not_swallowed (cfg : Config) (b : Backend) (d : QueryDescriptor)
    (req : MutationRequest) (m : String) (h : b.fault = some m) :
    fetchMany b d = .error (.executionError m)
  ∧ fetchOne b d = .error (.executionError m)
  ∧ fetchOneOrFail b d = .error (.executionError m)
  ∧ aggregateOne b d = .error (.executionError m)
  ∧ countRows b d = .error (.executionError m)
  ∧ execute cfg b req = (.error (.executionError m), b.store) := by
  refine ⟨?_, ?_, ?_, ?_, ?_, ?_⟩ <;>
    simp [fetchMany, fetchOne, fetchOneOrFail, aggregateOne, countRows, execute, h]

/-- C1 witness: a concrete faulted backend. -/
theorem errors_not_swallowed_witness :
    fetchMany { store := { tabs := [], nextId := 0 }, fault := some "disk failure" }
        (fromTable "session")
      = .error (.executionError "disk failure")
  ∧ fetchOne { store := { tabs := [], nextId := 0 }, fault := some "disk failure" }
        (fromTable "session")
      = .error (.executionError "disk failure")
  ∧ fetchOneOrFail { store := { tabs := [], nextId := 0 }, fault := some "disk failure" }
        (fromTable "session")
      = .error (.executionError "disk failure")
  ∧ aggregateOne { store := { tabs := [], nextId := 0 }, fault := some "disk failure" }
        (fromTable "session")
      = .error (.executionError "disk failure")
  ∧ countRows { store := { tabs := [], nextId := 0 }, fault := some "disk failure" }
        (fromTable "session")
      = .error (.executionError "disk failure")
  ∧ execute { schemas := [], threshold := 1 }
        { store := { tabs := [], nextId := 0 }, fault := some "disk failure" }
        { table := "session", op := .deleteOp (.byKey "k"), bulkConfirmed := false }
      = (.error (.executionError "disk failure"), { tabs := [], nextId := 0 }) :=
  errors_not_swallowed { schemas := [], threshold := 1 }
    { store := { tabs := [], nextId := 0 }, fault := some "disk failure" }
    (fromTable "session")
    { table := "session", op := .deleteOp (.byKey "k"), bulkConfirmed := false }
    "disk failure" rfl

/-- C3: a predicate-based (key-less) update or delete whose match count
exceeds the configured safety threshold, on a request without the explicit
bulk-confirmation flag, fails with `UnsafeBulkMutationError` and modifies no
row (the store is returned unchanged). -/
theorem bulk_guard (cfg : Config) (b : Backend) (t : String) (ps : List QPred)
    (data : List (String × Value))
    (hf : b.fault = none)
    (hover : ((b.store.getTable t).filter (fun r => ps.all (fun p => evalPred p r))).length
      > cfg.threshold) :
    execute cfg b { table := t, op := .updateOp (.byPred ps) data, bulkConfirmed := false }
      = (.error .unsafeBulkMutation, b.store)
  ∧ execute cfg b { table := t, op := .deleteOp (.byPred ps), bulkConfirmed := false }
      = (.error .unsafeBulkMutation, b.store) := by
  constructor <;> simp [execute, hf, hover]

/-- C3 witness: two rows match an empty predicate list against a threshold
of one, with no confirmation flag. -/
theorem bulk_guard_witness :
    execute { schemas := [], threshold := 1 }
        { store :=
            { tabs := [("session", [{ fields := [] }, { fields := [] }])], nextId := 0 },
          fault := none }
        { table := "session", op := .updateOp (.byPred []) [("status", Value.str "archived")],
          bulkConfirmed := false }
      = (.error .unsafeBulkMutation,
          { tabs := [("session", [{ fields := [] }, { fields := [] }])], nextId := 0 })
  ∧ execute { schemas := [], threshold := 1 }
        { store :=
            { tabs := [("session", [{ fields := [] }, { fields := [] }])], nextId := 0 },
          fault := none }
        { table := "session", op := .deleteOp (.byPred []), bulkConfirmed := false }
      = (.error .unsafeBulkMutation,
          { tabs := [("session", [{ fields := [] }, { fields := [] }])], nextId := 0 }) :=
  bulk_guard { schemas := [], threshold := 1 }
    { store := { tabs := [("session", [{ fields := [] }, { fields := [] }])], nextId := 0 },
      fault := none }
    "session" [] [("status", Value.str "archived")] rfl (by decide)

/-- C9: `updateSafe` on a sys_id with no record in the table returns a
failure result whose message is `Record not found: ` followed by the sys_id,
and performs no write (the platform store is returned unchanged).  Empty
table or sys_id strings take the source's missing-argument guard instead, so
the statement assumes both identifiers are non-empty. -/
theorem updateSafe_notFound (s : SNStore) (table sysId : String) (data : SNData)
    (ht : table ≠ "") (hid : sysId ≠ "")
    (h : snRecordExists s table sysId = false) :
    (updateSafe s table sysId data).1.success = false
  ∧ (updateSafe s table sysId data).1.error = some ("Record not found: " ++ sysId)
  ∧ (updateSafe s table sysId data).2 = s := by
  simp [updateSafe, h, ht, hid]

/-- C9 witness: a store whose session table has one other record. -/
theorem updateSafe_notFound_witness :
    (updateSafe { tabs := [("session", [[("sys_id", "other")]])] } "session" "missing"
        [("status", "done")]).1.success = false
  ∧ (updateSafe { tabs := [("session", [[("sys_id", "other")]])] } "session" "missing"
        [("status", "done")]).1.error = some ("Record not found: " ++ "missing")
  ∧ (updateSafe { tabs := [("session", [[("sys_id", "other")]])] } "session" "missing"
        [("status", "done")]).2 = { tabs := [("session", [[("sys_id", "other")]])] } :=
  updateSafe_notFound { tabs := [("session", [[("sys_id", "other")]])] } "session" "missing"
    [("status", "done")] (by decide) (by decide) (by decide)

/-- C7: `count` returns a bare integer equal to the number of rows matching
the descriptor's predicates, and equals the single count aggregate run by
`aggregateOne` over that descriptor. -/
theorem count_matches (b : Backend) (d : QueryDescriptor) (hf : b.fault = none) :
    countRows b d
      = .ok ((b.store.getTable d.table).filter (fun r => rowMatches d r)).length
  ∧ aggregateOne b { d with aggs := [{ fn := .count, field := none }] }
      = .ok [("count",
          Value.int ((b.store.getTable d.table).filter (fun r => rowMatches d r)).length)] := by
  constructor
  · simp [countRows, aggregateOne, hf, aggKey, evalAgg, rowMatches]
  · simp [aggregateOne, hf, aggKey, evalAgg, rowMatches]

/-- C7 witness: three active and two inactive sessions, counted through a
status predicate. -/
theorem count_matches_witness :
    countRows
        { store :=
            { tabs :=
                [("session",
                  [{ fields := [("status", Value.str "active")] },
                   { fields := [("status", Value.str "active")] },
                   { fields := [("status", Value.str "active")] },
                   { fields := [("status", Value.str "inactive")] },
                   { fields := [("status", Value.str "inactive")] }])],
              nextId := 0 },
          fault := none }
        ((fromTable "session").wherePred
          { field := "status", op := .eq, value := [Value.str "active"] })
      = .ok 3 := by
  have h := count_matches
    { store :=
        { tabs :=
            [("session",
              [{ fields := [("status", Value.str "active")] },
               { fields := [("status", Value.str "active")] },
               { fields := [("status", Value.str "active")] },
               { fields := [("status", Value.str "inactive")] },
               { fields := [("status", Value.str "inactive")] }])],
          nextId := 0 },
      fault := none }
    ((fromTable "session").wherePred
      { field := "status", op := .eq, value := [Value.str "active"] })
    rfl
  rw [h.1]
  rfl

theorem fetchRows_limit (s : Store) (d : QueryDescriptor) (n : Nat) :
    fetchRows s { d with limit := some n } =
      (if d.orders.isEmpty then (s.getTable d.table).filter (fun r => rowMatches d r)
       else sortRows (fun a b => rowLE d.orders a b)
         ((s.getTable d.table).filter (fun r => rowMatches d r))).take n := rfl

/-- C6: on a descriptor matching zero rows, `fetchOne` returns absent (not
an error) while `fetchOneOrFail` fails with `NotFoundError`; on a descriptor
matching at least one row, `fetchOne` returns exactly the record that
`fetchMany` with the limit forced to 1 returns. -/
theorem fetchOne_semantics (b : Backend) (d : QueryDescriptor) (hf : b.fault = none) :
    ((b.store.getTable d.table).filter (fun r => rowMatches d r) = [] →
       fetchOne b d = .ok none ∧ fetchOneOrFail b d = .error .notFound)
  ∧ ((b.store.getTable d.table).filter (fun r => rowMatches d r) ≠ [] →
       ∃ r, fetchOne b d = .ok (some r)
         ∧ fetchMany b { d with limit := some 1 } = .ok [r]) := by
  constructor
  · intro h
    have hrows : fetchRows b.store { d with limit := some 1 } = [] := by
      rw [fetchRows_limit, h]
      simp [sortRows]
    have hone : fetchOne b d = .ok none := by
      simp [fetchOne, fetchMany, hf, hrows]
    exact ⟨hone, by simp [fetchOneOrFail, hone]⟩
  · intro h
    have hlen :
        (if d.orders.isEmpty then (b.store.getTable d.table).filter (fun r => rowMatches d r)
         else sortRows (fun a b => rowLE d.orders a b)
           ((b.store.getTable d.table).filter (fun r => rowMatches d r))).length
        = ((b.store.getTable d.table).filter (fun r => rowMatches d r)).length := by
      by_cases ho : d.orders.isEmpty
      · simp [ho]
      · simp [ho, sortRows_length]
    have hne :
        (if d.orders.isEmpty then (b.store.getTable d.table).filter (fun r => rowMatches d r)
         else sortRows (fun a b => rowLE d.orders a b)
           ((b.store.getTable d.table).filter (fun r => rowMatches d r))) ≠ [] := by
      intro hnil
      rw [hnil] at hlen
      exact h (List.eq_nil_of_length_eq_zero hlen.symm)
    obtain ⟨r, rest, hcons⟩ := List.exists_cons_of_ne_nil hne
    have hrows : fetchRows b.store { d with limit := some 1 } = [r] := by
      rw [fetchRows_limit, hcons]
      rfl
    refine ⟨r, ?_, ?_⟩
    · simp [fetchOne, fetchMany, hf, hrows]
    · simp [fetchMany, hf, hrows]

/-- C6 witness: scenario C of the spec, a key predicate matching nothing. -/
theorem fetchOne_semantics_witness :
    fetchOne
        { store := { tabs := [("session", [{ fields := [("id", Value.str "s1")] }])], nextId := 0 },
          fault := none }
        ((fromTable "session").wherePred
          { field := "id", op := .eq, value := [Value.str "missing"] })
      = .ok none
  ∧ fetchOneOrFail
        { store := { tabs := [("session", [{ fields := [("id", Value.str "s1")] }])], nextId := 0 },
          fault := none }
        ((fromTable "session").wherePred
          { field := "id", op := .eq, value := [Value.str "missing"] })
      = .error .notFound :=
  (fetchOne_semantics
    { store := { tabs := [("session", [{ fields := [("id", Value.str "s1")] }])], nextId := 0 },
      fault := none }
    ((fromTable "session").wherePred
      { field := "id", op := .eq, value := [Value.str "missing"] })
    rfl).1 (by decide)

theorem batchGo_spec (ins : PlatformInsert) (table : String) :
    ∀ (records : List SNData) (s : SNStore) (i : Nat),
      (batchGo ins table s i records).1 + (batchGo ins table s i records).2.1.length
        = records.length
      ∧ ∀ m ∈ (batchGo ins table s i records).2.1,
          ∃ j e, i ≤ j ∧ j < i + records.length ∧ m = "Record " ++ toString j ++ ": " ++ e := by
  intro records
  induction records with
  | nil =>
    intro s i
    simp [batchGo]
  | cons d rest ih =>
    intro s i
    have ihx := ih (insertSafe ins s table d).2 (i + 1)
    by_cases hs : (insertSafe ins s table d).1.success = true
    · simp only [batchGo, hs, if_true]
      constructor
      · simp only [List.length_cons]
        omega
      · intro m hm
        obtain ⟨j, e, hij, hjr, hm2⟩ := ihx.2 m hm
        exact ⟨j, e, by omega, by simp only [List.length_cons]; omega, hm2⟩
    · simp only [batchGo, hs, Bool.false_eq_true, if_false]
      constructor
      · have := ihx.1
        simp only [List.length_cons]
        omega
      · intro m hm
        rcases List.mem_cons.mp hm with hm1 | hm1
        · exact ⟨i, (insertSafe ins s table d).1.error.getD "", le_refl i,
            by simp only [List.length_cons]; omega, hm1⟩
        · obtain ⟨j, e, hij, hjr, hm2⟩ := ihx.2 m hm1
          exact ⟨j, e, by omega, by simp only [List.length_cons]; omega, hm2⟩

/-- C10: `batchInsert` attempts the records in index order; its `inserted`
count plus the number of collected error entries equals the number of
records (one error entry, tagged with the record's index, per failed
record), and `success` holds exactly when no error was collected.  The
statement quantifies over every platform insert behavior and assumes the
table name is non-empty (a falsy table takes the invalid-parameter guard
instead). -/
theorem batchInsert_accounting (ins : PlatformInsert) (s : SNStore) (table : String)
    (records : List SNData) (ht : table ≠ "") :
    (batchInsert ins s table records).1.inserted
        + (batchInsert ins s table records).1.errors.length = records.length
  ∧ ((batchInsert ins s table records).1.success = true
      ↔ (batchInsert ins s table records).1.errors = [])
  ∧ ∀ m ∈ (batchInsert ins s table records).1.errors,
      ∃ j e, j < records.length ∧ m = "Record " ++ toString j ++ ": " ++ e := by
  have hg := batchGo_spec ins table records s 0
  have hb : (table == "") = false := by
    simp [ht]
  refine ⟨?_, ?_, ?_⟩
  · simp only [batchInsert, hb, Bool.false_eq_true, if_false]
    exact hg.1
  · simp only [batchInsert, hb, Bool.false_eq_true, if_false]
    exact List.isEmpty_iff
  · simp only [batchInsert, hb, Bool.false_eq_true, if_false]
    intro m hm
    obtain ⟨j, e, _, hjr, hm2⟩ := hg.2 m hm
    exact ⟨j, e, by omega, hm2⟩

/-- C10 witness: two records, the second rejected by the platform. -/
theorem batchInsert_accounting_witness :
    (batchInsert insRejectEmpty { tabs := [] } "t" [[("a", "1")], []]).1.inserted
        + (batchInsert insRejectEmpty { tabs := [] } "t" [[("a", "1")], []]).1.errors.length
      = ([[("a", "1")], []] : List SNData).length
  ∧ ((batchInsert insRejectEmpty { tabs := [] } "t" [[("a", "1")], []]).1.success = true
      ↔ (batchInsert insRejectEmpty { tabs := [] } "t" [[("a", "1")], []]).1.errors = [])
  ∧ ∀ m ∈ (batchInsert insRejectEmpty { tabs := [] } "t" [[("a", "1")], []]).1.errors,
      ∃ j e, j < ([[("a", "1")], []] : List SNData).length
        ∧ m = "Record " ++ toString j ++ ": " ++ e :=
  batchInsert_accounting insRejectEmpty { tabs := [] } "t" [[("a", "1")], []] (by decide)

theorem filter_keyPred_nil (k : String) (rows : List Row)
    (h : ∀ r ∈ rows, r.getField "id" ≠ some (Value.str k)) :
    rows.filter (fun r => evalPred (keyPred k) r) = [] := by
  rw [List.filter_eq_nil_iff]
  intro r hr
  have hne := h r hr
  cases hv : r.getField "id" with
  | none => simp [evalPred, keyPred, hv]
  | some v =>
    simp [evalPred, keyPred, hv]
    intro heq
    exact hne (by rw [hv, heq])

theorem insert_fetch_aux (s : Store) (t : String) (data : List (String × Value)) (k : String)
    (hfresh : ∀ r ∈ s.getTable t, r.getField "id" ≠ some (Value.str k)) :
    fetchOne
      { store :=
          { s.setTable t (s.getTable t ++ [{ fields := ("id", Value.str k) :: data }]) with
            nextId := s.nextId + 1 },
        fault := none }
      ((fromTable t).wherePred (keyPred k))
      = .ok (some { fields := ("id", Value.str k) :: data }) := by
  have htab :
      ({ s.setTable t (s.getTable t ++ [{ fields := ("id", Value.str k) :: data }]) with
          nextId := s.nextId + 1 } : Store).getTable t
        = s.getTable t ++ [{ fields := ("id", Value.str k) :: data }] :=
    getTable_setTable s t _
  have hmatchNew :
      evalPred (keyPred k) { fields := ("id", Value.str k) :: data } = true := by
    simp [evalPred, keyPred, Row.getField, alookup]
  have hfun : (fun r => rowMatches ((fromTable t).wherePred (keyPred k)) r)
      = fun r => evalPred (keyPred k) r := by
    funext r
    simp [rowMatches, QueryDescriptor.wherePred, fromTable]
  have hone : fetchOne
      { store :=
          { s.setTable t (s.getTable t ++ [{ fields := ("id", Value.str k) :: data }]) with
            nextId := s.nextId + 1 },
        fault := none }
      ((fromTable t).wherePred (keyPred k))
      = .ok (((({ s.setTable t
              (s.getTable t ++ [{ fields := ("id", Value.str k) :: data }]) with
            nextId := s.nextId + 1 } : Store).getTable t).filter
          (fun r => rowMatches ((fromTable t).wherePred (keyPred k)) r)).take 1).head? := rfl
  rw [hone, htab, hfun, List.filter_append, filter_keyPred_nil _ _ hfresh]
  simp [hmatchNew]

/-- C4: inserting a record with a valid field mapping and then fetching by
the returned primary key yields a record whose fields are exactly the
inserted field values plus the key field, unaltered.  The freshness
hypothesis says the generated key is not already present in the table (the
invariant key generation maintains). -/
theorem insert_roundtrip (cfg : Config) (b : Backend) (t : String)
    (data : List (String × Value))
    (hf : b.fault = none)
    (hvalid : missingRequired (cfg.schemaOf t) data = none)
    (hfresh : ∀ r ∈ b.store.getTable t,
      r.getField "id" ≠ some (Value.str (freshKey b.store))) :
    ∃ s2, execute cfg b { table := t, op := .insertOp data, bulkConfirmed := false }
        = (.ok (.insertedKey (freshKey b.store) data), s2)
      ∧ fetchOne { store := s2, fault := none }
          ((fromTable t).wherePred (keyPred (freshKey b.store)))
        = .ok (some { fields := ("id", Value.str (freshKey b.store)) :: data }) := by
  refine ⟨{ b.store.setTable t (b.store.getTable t
      ++ [{ fields := ("id", Value.str (freshKey b.store)) :: data }]) with
    nextId := b.store.nextId + 1 }, ?_, ?_⟩
  · simp [execute, hf, hvalid, Store.setTable]
  · exact insert_fetch_aux b.store t data (freshKey b.store) hfresh

/-- C4 witness: inserting two fields into an empty store and reading the
record back by the generated key. -/
theorem insert_roundtrip_witness :
    ∃ s2, execute { schemas := [], threshold := 1 }
        { store := { tabs := [], nextId := 0 }, fault := none }
        { table := "t",
          op := .insertOp [("a", Value.int 1), ("b", Value.str "x")],
          bulkConfirmed := false }
        = (.ok (.insertedKey (freshKey { tabs := [], nextId := 0 })
            [("a", Value.int 1), ("b", Value.str "x")]), s2)
      ∧ fetchOne { store := s2, fault := none }
          ((fromTable "t").wherePred (keyPred (freshKey { tabs := [], nextId := 0 })))
        = .ok (some { fields :=
            ("id", Value.str (freshKey { tabs := [], nextId := 0 }))
              :: [("a", Value.int 1), ("b", Value.str "x")] }) :=
  insert_roundtrip { schemas := [], threshold := 1 }
    { store := { tabs := [], nextId := 0 }, fault := none } "t"
    [("a", Value.int 1), ("b", Value.str "x")] rfl rfl
    (by intro r hr; simp [Store.getTable, alookup] at hr)


theorem updateAllRows_ok_rel (fds : List FieldDef) (ps : List QPred)
    (data : List (String × Value)) :
    ∀ (rows rs : List Row) (n : Nat),
      updateAllRows fds ps data rows = .ok (rs, n) →
      List.Forall₂ (fun r r2 =>
        if ps.all (fun p => evalPred p r) then updateRow fds data r = .ok r2 else r2 = r)
        rows rs := by
  intro rows
  induction rows with
  | nil =>
    intro rs n h
    simp [updateAllRows] at h
    obtain ⟨h1, h2⟩ := h
    subst h1
    exact List.Forall₂.nil
  | cons r rest ih =>
    intro rs n h
    by_cases hm : (ps.all fun p => evalPred p r) = true
    · cases hu : updateRow fds data r with
      | error e => simp [updateAllRows, hm, hu] at h
      | ok r2 =>
        cases hrec : updateAllRows fds ps data rest with
        | error e => simp [updateAllRows, hm, hu, hrec] at h
        | ok pr =>
          obtain ⟨rs0, n0⟩ := pr
          simp [updateAllRows, hm, hu, hrec] at h
          obtain ⟨h1, h2⟩ := h
          subst h1
          exact List.Forall₂.cons (by simp [hm, hu]) (ih rs0 n0 hrec)
    · cases hrec : updateAllRows fds ps data rest with
      | error e => simp [updateAllRows, hm, hrec] at h
      | ok pr =>
        obtain ⟨rs0, n0⟩ := pr
        simp [updateAllRows, hm, hrec] at h
        obtain ⟨h1, h2⟩ := h
        subst h1
        exact List.Forall₂.cons (by simp [hm]) (ih rs0 n0 hrec)

theorem execute_cases (cfg : Config) (b : Backend) (req : MutationRequest) :
    (execute cfg b req).2 = b.store ∨ ∃ out, (execute cfg b req).1 = .ok out := by
  obtain ⟨store0, fault0⟩ := b
  obtain ⟨t, op, conf⟩ := req
  simp only [execute]
  cases fault0 with
  | some m => simp
  | none =>
    cases op with
    | insertOp data =>
      cases hm : missingRequired (cfg.schemaOf t) data <;> simp [hm]
    | updateOp target data =>
      cases target with
      | byKey k =>
        cases hu : updateAllRows (cfg.schemaOf t) [keyPred k] data
            (Store.getTable { tabs := store0.tabs, nextId := store0.nextId } t) with
        | error e => simp [hu]
        | ok pr =>
          obtain ⟨rs, n⟩ := pr
          by_cases hn : (n == 0) = true <;> simp [hu, hn]
      | byPred ps =>
        by_cases hg : (decide
            (((Store.getTable { tabs := store0.tabs, nextId := store0.nextId } t).filter
              (fun r => ps.all (fun p => evalPred p r))).length > cfg.threshold) && !conf) = true
        · simp [hg]
        · cases hu : updateAllRows (cfg.schemaOf t) ps data
              (Store.getTable { tabs := store0.tabs, nextId := store0.nextId } t) with
          | error e => simp [hg, hu]
          | ok pr =>
            obtain ⟨rs, n⟩ := pr
            simp [hg, hu]
    | deleteOp target =>
      cases target with
      | byKey k =>
        by_cases hn : (((Store.getTable { tabs := store0.tabs, nextId := store0.nextId } t).filter
              (fun r => !(evalPred (keyPred k) r))).length
            == (Store.getTable { tabs := store0.tabs, nextId := store0.nextId } t).length)
            = true <;> simp [hn]
      | byPred ps =>
        by_cases hg : (decide
            (((Store.getTable { tabs := store0.tabs, nextId := store0.nextId } t).filter
              (fun r => ps.all (fun p => evalPred p r))).length > cfg.threshold) && !conf) = true
          <;> simp [hg]

/-- C2: a `MutationRequest` executes atomically: on any failure the store is
returned unchanged (no row of the request was applied), and on success of a
multi-row bulk update every matching row carries the update and every other
row is untouched — there is no outcome with only some rows written. -/
theorem execute_atomic (cfg : Config) (b : Backend) (req : MutationRequest) :
    (∀ e, (execute cfg b req).1 = .error e → (execute cfg b req).2 = b.store)
  ∧ (∀ ps data out, req.op = .updateOp (.byPred ps) data →
      (execute cfg b req).1 = .ok out →
      List.Forall₂ (fun r r2 =>
        if ps.all (fun p => evalPred p r) then updateRow (cfg.schemaOf req.table) data r = .ok r2
        else r2 = r)
        (b.store.getTable req.table) ((execute cfg b req).2.getTable req.table)) := by
  constructor
  · intro e he
    rcases execute_cases cfg b req with h | ⟨out, hout⟩
    · exact h
    · rw [he] at hout
      exact absurd hout (by simp)
  · intro ps data out hop hok
    obtain ⟨t, op, conf⟩ := req
    replace hop : op = MutOp.updateOp (MutTarget.byPred ps) data := hop
    subst hop
    cases hfo : b.fault with
    | some m => simp [execute, hfo] at hok
    | none =>
      simp only [execute, hfo] at hok ⊢
      split at hok
      next hg => exact absurd hok (by simp)
      next hg =>
        split at hok
        next e2 heq => exact absurd hok (by simp)
        next rs n heq =>
          rw [if_neg hg]
          simp only [getTable_setTable]
          exact updateAllRows_ok_rel _ _ _ _ _ _ heq

/-- C2 witness: a failing update by missing key leaves the store unchanged,
and a successful key-less bulk update relates old and new table pointwise. -/
theorem execute_atomic_witness :
    (execute { schemas := [], threshold := 1 }
        { store := { tabs := [], nextId := 0 }, fault := none }
        { table := "t", op := .updateOp (.byKey "missing") [], bulkConfirmed := false }).2
      = { tabs := [], nextId := 0 }
  ∧ List.Forall₂ (fun r r2 =>
      if (([] : List QPred).all fun p => evalPred p r) then
        updateRow (Config.schemaOf { schemas := [], threshold := 0 } "t")
          [("status", Value.str "done")] r = .ok r2
      else r2 = r)
      (Store.getTable
        { tabs := [("t", [{ fields := [("status", Value.str "open")] }])], nextId := 0 } "t")
      ((execute { schemas := [], threshold := 0 }
        { store := { tabs := [("t", [{ fields := [("status", Value.str "open")] }])], nextId := 0 },
          fault := none }
        { table := "t", op := .updateOp (.byPred []) [("status", Value.str "done")],
          bulkConfirmed := true }).2.getTable "t") :=
  ⟨(execute_atomic { schemas := [], threshold := 1 }
      { store := { tabs := [], nextId := 0 }, fault := none }
      { table := "t", op := .updateOp (.byKey "missing") [], bulkConfirmed := false }).1
      .notFound rfl,
   (execute_atomic { schemas := [], threshold := 0 }
      { store := { tabs := [("t", [{ fields := [("status", Value.str "open")] }])], nextId := 0 },
        fault := none }
      { table := "t", op := .updateOp (.byPred []) [("status", Value.str "done")],
        bulkConfirmed := true }).2 [] [("status", Value.str "done")] (.affected 1) rfl rfl⟩
